import Mathlib

/-!
Shallow embedding of the survey-analysis pipeline in
`ai_methodology_system/research/views.py` (functions `ai_generate_discussion`,
`analyze`, `export_word`) together with the pandas / scipy library semantics
the code relies on.

Modelling conventions:
* Machine floats are modelled by `ℚ`; a missing cell (`NaN`) is `Option.none`.
  Values whose exact computation leaves `ℚ` (square roots inside standard
  deviations, Pearson coefficients and Welch statistics, and the Student-t
  CDF behind p-values) are kept in an exact representation: a Pearson entry
  is stored as the pair `(num, denSq)` with real value `num / Real.sqrt denSq`,
  and a Welch test stores the two cleaned samples that scipy consumes.
* The external OpenAI completion service is an oracle `svc : ℕ → Except Unit String`
  giving the outcome of the n-th completion call of the request (the calls are
  made strictly sequentially, one per discussion entry).
* Django's session is the explicit state `Option Report` threaded through the
  handlers; `render`-ed pages and `HttpResponse`s are constructors of small
  response types.
-/

namespace Estadistika

/-- A pandas column as `analyze` sees it after `select_dtypes`: either a
numeric (`np.number`) column or a categorical (non-numeric, `object`) column.
`none` entries are `NaN` cells. -/
inductive ColData where
  | numeric (vals : List (Option ℚ))
  | categorical (vals : List (Option String))
deriving DecidableEq

/-- Number of cells stored in a column. -/
def ColData.size : ColData → ℕ
  | .numeric vs => vs.length
  | .categorical vs => vs.length

/-- The dataframe `df = pd.read_excel(...)`: a row count and the ordered,
named columns. -/
structure DataFrame where
  nrows : ℕ
  cols : List (String × ColData)
deriving DecidableEq

/-- Every column holds exactly `nrows` cells. -/
def DataFrame.WF (df : DataFrame) : Prop :=
  ∀ c ∈ df.cols, c.2.size = df.nrows

/-- `df.select_dtypes(include=np.number)`: the numeric columns, in original
column order. -/
def DataFrame.numericCols (df : DataFrame) : List (String × List (Option ℚ)) :=
  df.cols.filterMap (fun c => match c.2 with
    | .numeric vs => some (c.1, vs)
    | .categorical _ => none)

/-- `df.select_dtypes(exclude=np.number)`: the non-numeric columns, in
original column order. -/
def DataFrame.categoricalCols (df : DataFrame) : List (String × List (Option String)) :=
  df.cols.filterMap (fun c => match c.2 with
    | .numeric _ => none
    | .categorical vs => some (c.1, vs))

/-- A dataframe that can actually come out of `pd.read_excel`:
well-formed, with pandas-mangled (hence distinct) column names, and, because
pandas type inference gives a zero-row sheet only `object` columns, a
zero-row frame has no numeric columns. -/
def DataFrame.Uploaded (df : DataFrame) : Prop :=
  df.WF ∧ (df.cols.map Prod.fst).Nodup ∧ (df.nrows = 0 → df.numericCols = [])

/-- One raw cell of `df.values.tolist()`. -/
inductive Cell where
  | num (q : ℚ)
  | str (s : String)
  | missing
deriving DecidableEq

/-- Cell of a column at row `r`. -/
def ColData.cellAt : ColData → ℕ → Cell
  | .numeric vs, r =>
      match vs.getD r none with
      | some q => .num q
      | none => .missing
  | .categorical vs, r =>
      match vs.getD r none with
      | some s => .str s
      | none => .missing

/-- `df.values.tolist()`: the rows of the frame as lists of cells. -/
def DataFrame.values (df : DataFrame) : List (List Cell) :=
  (List.range df.nrows).map (fun r => df.cols.map (fun c => c.2.cellAt r))

/-! ### Rounding

pandas' `round` and Python's `round` on numpy values round half to even
(banker's rounding). -/

/-- Round half to even to the nearest integer. -/
def rne (x : ℚ) : ℤ :=
  let f := ⌊x⌋
  if x - f < 1/2 then f
  else if 1/2 < x - f then f + 1
  else if Even f then f else f + 1

/-- `round(x, d)`: round half to even at `d` decimal places. -/
def roundTo (d : ℕ) (x : ℚ) : ℚ :=
  (rne (x * 10 ^ d) : ℚ) / 10 ^ d

/-! ### `Series.value_counts(dropna=False)`

pandas collects the distinct values (including `NaN`) in first-seen order via
its hash table, then sorts by count descending with a stable sort
(`sort_values(ascending=False, kind="stable")`, whose `nargsort` reverses the
array before and the indexer after a stable ascending argsort, so ties keep
first-seen order). -/

/-- Distinct elements of a list in order of first appearance. -/
def firstSeen {α : Type} [DecidableEq α] : List α → List α
  | [] => []
  | v :: rest => v :: firstSeen (rest.filter (fun x => x ≠ v))
termination_by l => l.length
decreasing_by
  simp only [List.length_cons]
  exact Nat.lt_succ_of_le (rest.length_filter_le _)

/-- The hash-table stage of `value_counts`: each first-seen distinct value
with its number of occurrences. -/
def freqList (vals : List (Option String)) : List (Option String × ℕ) :=
  (firstSeen vals).map (fun v => (v, vals.count v))

/-- Comparison used to sort counts descending. -/
def descCount (a b : Option String × ℕ) : Bool := b.2 ≤ a.2

/-- `df[col].value_counts(dropna=False)`: frequencies sorted by count
descending, ties in first-seen order. -/
def value_counts (vals : List (Option String)) : List (Option String × ℕ) :=
  (freqList vals).mergeSort descCount

/-- One frequency table:
`freq["Percent"] = round(freq["Frequency"] / total_n * 100, 2)` and
`freq.values.tolist()` rows `(Category, Frequency, Percent)`. -/
def freqRows (total_n : ℕ) (vals : List (Option String)) :
    List (Option String × ℕ × ℚ) :=
  (value_counts vals).map
    (fun r => (r.1, r.2, roundTo 2 ((r.2 : ℚ) / (total_n : ℚ) * 100)))

/-! ### Descriptive statistics

`numeric.agg(["mean", "std"]).T.round(2)`: per numeric column the mean and
the sample standard deviation (`ddof=1`), `NaN`-skipping, rounded to two
decimals.  The standard deviation is the square root of the sample variance;
the square root leaves `ℚ`, so the embedding stores the exact sample
variance (no claim reads the statistic values). -/

/-- `Series.dropna()`: the non-missing values of a numeric column. -/
def dropna (xs : List (Option ℚ)) : List ℚ := xs.filterMap id

/-- `NaN`-skipping mean; `NaN` (`none`) when no value remains. -/
def mean (xs : List ℚ) : Option ℚ :=
  if xs.length = 0 then none else some (xs.sum / (xs.length : ℚ))

/-- `NaN`-skipping sample variance (`ddof=1`); `NaN` when fewer than two
values remain. -/
def sampleVar (xs : List ℚ) : Option ℚ :=
  if xs.length < 2 then none
  else some ((xs.map (fun v => (v - xs.sum / (xs.length : ℚ)) ^ 2)).sum
              / ((xs.length : ℚ) - 1))

/-- One row `[variable, mean, std]` of `stats_table`, with the standard
deviation represented by the exact sample variance. -/
def statsTable (num : List (String × List (Option ℚ))) :
    List (String × Option ℚ × Option ℚ) :=
  num.map (fun c => (c.1, (mean (dropna c.2)).map (roundTo 2),
                          sampleVar (dropna c.2)))

/-- `numeric.empty`: a dataframe is empty when either axis has length zero. -/
def numericEmpty (df : DataFrame) : Bool :=
  df.numericCols.isEmpty || df.nrows = 0

/-! ### `numeric.corr()` — pandas `nancorr`

For each pair of numeric columns pandas keeps the rows where both values are
present and computes `covxy / sqrt(ssqdmx * ssqdmy)` over them, where
`covxy = Σ(x-x̄)(y-ȳ)` and `ssqdm` are the sums of squared deviations; the
entry is `NaN` when no valid row remains (`min_periods=1`) or the divisor is
zero.  With `n` valid rows these equal `SP/n`, `SSx/n`, `SSy/n` for
`SP = n·Σxy − Σx·Σy`, `SSx = n·Σx² − (Σx)²`, `SSy = n·Σy² − (Σy)²`, and the
`n`s cancel, so the coefficient is `SP / sqrt(SSx · SSy)`.  The embedding
stores the exact pair `(SP, SSx·SSy)` (real value `SP / √(SSx·SSy)`), or
`none` for `NaN`; the `.round(3)` the code applies afterwards acts pointwise
on the real value and is not representable in `ℚ`, but it preserves the only
properties claimed of the matrix (symmetry, and exact diagonal `1.0`, since
`round(1.0, 3) = 1.0`). -/

/-- Rows of a column pair where both values are present (pairwise deletion). -/
def validPairs (xs ys : List (Option ℚ)) : List (ℚ × ℚ) :=
  (xs.zip ys).filterMap (fun p =>
    match p with
    | (some a, some b) => some (a, b)
    | _ => none)

/-- `n·Σx² − (Σx)²` over the first components of the valid pairs. -/
def ssX (ps : List (ℚ × ℚ)) : ℚ :=
  (ps.length : ℚ) * (ps.map (fun p => p.1 * p.1)).sum
    - (ps.map Prod.fst).sum * (ps.map Prod.fst).sum

/-- `n·Σy² − (Σy)²` over the second components of the valid pairs. -/
def ssY (ps : List (ℚ × ℚ)) : ℚ :=
  (ps.length : ℚ) * (ps.map (fun p => p.2 * p.2)).sum
    - (ps.map Prod.snd).sum * (ps.map Prod.snd).sum

/-- `n·Σxy − Σx·Σy` over the valid pairs. -/
def spXY (ps : List (ℚ × ℚ)) : ℚ :=
  (ps.length : ℚ) * (ps.map (fun p => p.1 * p.2)).sum
    - (ps.map Prod.fst).sum * (ps.map Prod.snd).sum

/-- One Pearson entry of `numeric.corr()`: `none` is `NaN`, and
`some (sp, dsq)` stands for the real value `sp / √dsq`. -/
def corrEntry (xs ys : List (Option ℚ)) : Option (ℚ × ℚ) :=
  let ps := validPairs xs ys
  if ps.length = 0 then none
  else if ssX ps * ssY ps = 0 then none
  else some (spXY ps, ssX ps * ssY ps)

/-- `some (sp, dsq)` represents the real number `1.0` exactly:
`sp / √dsq = 1` iff `0 < sp` and `sp² = dsq`. -/
def IsOneRepr (v : Option (ℚ × ℚ)) : Prop :=
  ∃ sp dsq, v = some (sp, dsq) ∧ 0 < sp ∧ sp * sp = dsq

/-- `corr_rows`: one row per numeric column holding the entries against every
numeric column, in column order. -/
def corrRows (num : List (String × List (Option ℚ))) :
    List (String × List (Option (ℚ × ℚ))) :=
  num.map (fun ci => (ci.1, num.map (fun cj => corrEntry ci.2 cj.2)))

/-! ### Welch's t-tests

`for i in range(len(cols)): for j in range(i+1, len(cols)):` runs
`scipy.stats.ttest_ind(numeric[cols[i]].dropna(), numeric[cols[j]].dropna(),
equal_var=False)`.  The embedding records, per test, the two column names and
the exact cleaned samples scipy consumes; the `t`/`p` floats involve a square
root and the Student-t CDF and are not read by any claim. -/

/-- One entry of `ttest_results`. -/
structure TTestEntry where
  var1 : String
  var2 : String
  sample1 : List ℚ
  sample2 : List ℚ
deriving DecidableEq

/-- All ordered pairs `(l[i], l[j])` with `i < j`, in the double-loop order
of the source. -/
def orderedPairs {α : Type} : List α → List (α × α)
  | [] => []
  | x :: rest => rest.map (fun y => (x, y)) ++ orderedPairs rest

/-- `ttest_results`: one Welch test per pair `i < j` of numeric columns. -/
def ttestResults (num : List (String × List (Option ℚ))) : List TTestEntry :=
  (orderedPairs num).map (fun p =>
    ⟨p.1.1, p.2.1, dropna p.1.2, dropna p.2.2⟩)

/-! ### The OpenAI call and the discussions -/

/-- The fixed fallback text of `ai_generate_discussion`. -/
def fallbackText : String := "AI-generated discussion is unavailable at the moment."

/-- `ai_generate_discussion`: the composed prompt is sent to the external
service; on success the completion text is `strip()`ped and returned, on any
exception the fixed fallback is returned.  `outcome` is the oracle's answer
for this call. -/
def ai_generate_discussion (outcome : Except Unit String) : String :=
  match outcome with
  | .ok s => s.trim
  | .error _ => fallbackText

/-- The session-stored `report_data` dictionary. -/
structure Report where
  title : String
  objective : String
  problem : String
  total_n : ℕ
  raw_cols : List String
  raw_data : List (List Cell)
  stats_table : List (String × Option ℚ × Option ℚ)
  freq_tables : List (String × List (Option String × ℕ × ℚ))
  corr_cols : Option (List String)
  corr_rows : Option (List (String × List (Option (ℚ × ℚ))))
  ttest_results : List TTestEntry
  table_discussions : List (String × String)
deriving DecidableEq

/-- The body of `analyze` on a validated form: the statistics pipeline plus
the sequential external calls.  `svc n` is the outcome of the `n`-th
completion call; the calls are made in source order (raw data, statistics,
one per categorical column, correlation, t-tests), so the call that produces
the discussion at list position `k` is call number `k`. -/
def analyzeCore (svc : ℕ → Except Unit String) (df : DataFrame)
    (title objective problem : String) : Report :=
  let num := df.numericCols
  let cat := df.categoricalCols
  let stats_table := if numericEmpty df then [] else statsTable num
  let freq_tables := cat.map (fun c => (c.1, freqRows df.nrows c.2))
  let cc : Option (List String) :=
    if 1 < num.length then some (num.map Prod.fst) else none
  let cr : Option (List (String × List (Option (ℚ × ℚ)))) :=
    if 1 < num.length then some (corrRows num) else none
  let tt := ttestResults num
  let statsN : ℕ := if numericEmpty df then 0 else 1
  let freqBase := 1 + statsN
  let corrIdx := freqBase + cat.length
  let corrN : ℕ := if 1 < num.length then 1 else 0
  let ttestIdx := corrIdx + corrN
  let table_discussions :=
    [("Table A. Raw Data", ai_generate_discussion (svc 0))]
    ++ (if numericEmpty df then []
        else [("Table B. Statistical Summary", ai_generate_discussion (svc 1))])
    ++ (cat.enum.map (fun ic =>
          ("Table C. Frequency Distribution of " ++ ic.2.1,
           ai_generate_discussion (svc (freqBase + ic.1)))))
    ++ (if 1 < num.length then
          [("Correlation Matrix", ai_generate_discussion (svc corrIdx))]
        else [])
    ++ (if tt.isEmpty then []
        else [("T-Test Results", ai_generate_discussion (svc ttestIdx))])
  { title := title
    objective := objective
    problem := problem
    total_n := df.nrows
    raw_cols := df.cols.map Prod.fst
    raw_data := df.values
    stats_table := stats_table
    freq_tables := freq_tables
    corr_cols := cc
    corr_rows := cr
    ttest_results := tt
    table_discussions := table_discussions }

/-- Responses the `analyze` view can render. -/
inductive AnalyzeResponse where
  | formPage
  | resultsPage (r : Report)
deriving DecidableEq

/-- The `analyze` view.  `form` is `some (df, title, objective, problem)`
when the posted form validates and the file parses, `none` when
`form.is_valid()` fails.  For a non-`POST` method the function body falls
through without a `return`, i.e. the view returns `None`. -/
def analyze (svc : ℕ → Except Unit String) (method : String)
    (form : Option (DataFrame × String × String × String))
    (session : Option Report) : Option AnalyzeResponse × Option Report :=
  if method = "POST" then
    match form with
    | none => (some .formPage, session)
    | some (df, t, o, p) =>
        let r := analyzeCore svc df t o p
        (some (.resultsPage r), some r)
  else (none, session)

/-! ### `export_word` -/

/-- One python-docx element added to the document. -/
inductive DocElem where
  | heading (level : ℕ) (text : String)
  | para (text : String)
deriving DecidableEq

/-- Responses of the `export_word` view. -/
inductive ExportResponse where
  | plain (body : String)
  | file (contentType : String) (contentDisposition : String)
         (doc : List DocElem)
deriving DecidableEq

/-- The docx body: title heading, three metadata paragraphs, the section
heading, then one heading-plus-paragraph pair per stored discussion. -/
def buildDoc (r : Report) : List DocElem :=
  [DocElem.heading 1 r.title,
   DocElem.para ("Objective: " ++ r.objective),
   DocElem.para ("Problem: " ++ r.problem),
   DocElem.para ("Respondents: " ++ toString r.total_n),
   DocElem.heading 1 "Discussion of Results"]
  ++ r.table_discussions.flatMap
      (fun td => [DocElem.heading 2 td.1, DocElem.para td.2])

/-- The MIME type set on the export response. -/
def docxMime : String :=
  "application/vnd.openxmlformats-officedocument.wordprocessingml.document"

/-- The `export_word` view: reads `report_data` from the session and never
writes to it. -/
def export_word (session : Option Report) : ExportResponse × Option Report :=
  match session with
  | none => (.plain "No data available.", none)
  | some r =>
      (.file docxMime "attachment; filename=Research_Report.docx" (buildDoc r),
       some r)

/-- The titles of the discussion entries, in production order; the entry at
list position `k` is produced by completion call number `k`. -/
def discTitles (df : DataFrame) : List String :=
  ["Table A. Raw Data"]
  ++ (if numericEmpty df then [] else ["Table B. Statistical Summary"])
  ++ df.categoricalCols.map
      (fun c => "Table C. Frequency Distribution of " ++ c.1)
  ++ (if 1 < df.numericCols.length then ["Correlation Matrix"] else [])
  ++ (if (ttestResults df.numericCols).isEmpty then [] else ["T-Test Results"])

/-- Concrete all-successful oracle used by witnesses. -/
def svcAllOk : ℕ → Except Unit String := fun _ => .ok "Generated discussion."

/-- Concrete example frame of spec §8: `Score=[10,20,30]`, `Group=[A,A,B]`. -/
def exDf : DataFrame :=
  { nrows := 3
    cols := [("Score", .numeric [some 10, some 20, some 30]),
             ("Group", .categorical [some "A", some "A", some "B"])] }

/-- Oracle that fails exactly on the first completion call. -/
def svcFail0 : ℕ → Except Unit String :=
  fun i => if i = 0 then .error () else .ok "completion"

/-- Oracle that agrees with `svcFail0` except on the first call, where it
succeeds. -/
def svcAlt0 : ℕ → Except Unit String :=
  fun i => if i = 0 then .ok "other completion" else .ok "completion"

/-- Concrete frame with three numeric columns (for pairwise-test witnesses). -/
def exDf3 : DataFrame :=
  { nrows := 3
    cols := [("a", .numeric [some 1, some 2, some 3]),
             ("b", .numeric [some 2, some 1, some 4]),
             ("c", .numeric [some 5, none, some 6])] }

/-- Concrete frame with a constant numeric column (degenerate variance). -/
def exDf2 : DataFrame :=
  { nrows := 2
    cols := [("x", .numeric [some 1, some 1]),
             ("y", .numeric [some 1, some 2])] }

/-! ## Theorems -/

/-- The example frame is a legitimate `read_excel` output. -/
theorem exDf_uploaded : exDf.Uploaded := by
  refine ⟨fun c hc => ?_, by decide, fun h0 => absurd h0 (by decide)⟩
  fin_cases hc <;> rfl

/-- Index lemma for the discussion section of the document body. -/
theorem flatMapPair_getElem (l : List (String × String)) : ∀ i : ℕ,
    (l.flatMap (fun td => [DocElem.heading 2 td.1, DocElem.para td.2]))[2 * i]?
      = (l[i]?).map (fun td => DocElem.heading 2 td.1)
    ∧ (l.flatMap (fun td => [DocElem.heading 2 td.1, DocElem.para td.2]))[2 * i + 1]?
      = (l[i]?).map (fun td => DocElem.para td.2) := by
  induction l with
  | nil => intro i; simp
  | cons td rest ih =>
    intro i
    cases i with
    | zero => simp
    | succ i =>
      have h2 : 2 * (i + 1) = (2 * i + 1) + 1 := by ring
      have h3 : 2 * (i + 1) + 1 = (2 * i + 1 + 1) + 1 := by ring
      simp only [List.flatMap_cons, List.cons_append, List.nil_append, h2, h3,
        List.getElem?_cons_succ]
      exact ih i

/-- C10: the `analyze` view handles only `POST`; any other method falls
through the function body, so the view returns `None` (no response). -/
theorem analyze_non_post_returns_none (svc : ℕ → Except Unit String)
    (method : String) (form : Option (DataFrame × String × String × String))
    (session : Option Report) (h : method ≠ "POST") :
    (analyze svc method form session).1 = none := by
  simp [analyze, h]

/-- Witness for C10: a `GET` request to `analyze` produces no response. -/
theorem analyze_non_post_returns_none_witness :
    "GET" ≠ "POST" ∧ (analyze svcAllOk "GET" none none).1 = none :=
  ⟨by decide, analyze_non_post_returns_none svcAllOk "GET" none none (by decide)⟩

/-- C9: `export_word` is read-only on the session: the stored report is
unchanged by an export (so `HasReport` stays `HasReport`), and a repeated
export of the same session returns the same response. -/
theorem export_word_read_only (session : Option Report) :
    (export_word session).2 = session
    ∧ (export_word (export_word session).2).1 = (export_word session).1 := by
  cases session <;> simp [export_word]

/-- C6: with no stored report the export view returns the plain-text
"no data" response and not a file; after a successful analysis it returns a
binary attachment with fixed filename `Research_Report.docx` and the standard
word-processing MIME type whose body holds, after the five fixed preamble
elements, one heading-plus-paragraph pair per stored discussion in stored
order. -/
theorem export_word_responses :
    (export_word none).1 = ExportResponse.plain "No data available."
    ∧ (∀ r : Report, (export_word (some r)).1
        = ExportResponse.file docxMime
            "attachment; filename=Research_Report.docx" (buildDoc r)
        ∧ (buildDoc r).drop 5
            = r.table_discussions.flatMap
                (fun td => [DocElem.heading 2 td.1, DocElem.para td.2])
        ∧ ∀ i : ℕ,
            ((buildDoc r).drop 5)[2 * i]?
              = (r.table_discussions[i]?).map (fun td => DocElem.heading 2 td.1)
            ∧ ((buildDoc r).drop 5)[2 * i + 1]?
              = (r.table_discussions[i]?).map (fun td => DocElem.para td.2))
    ∧ (∀ (svc : ℕ → Except Unit String) (df : DataFrame)
        (t o p : String) (s0 : Option Report),
        (export_word (analyze svc "POST" (some (df, t, o, p)) s0).2).1
          = ExportResponse.file docxMime
              "attachment; filename=Research_Report.docx"
              (buildDoc (analyzeCore svc df t o p))) := by
  refine ⟨rfl, fun r => ⟨rfl, by simp [buildDoc], fun i => ?_⟩, fun svc df t o p s0 => ?_⟩
  · have h := flatMapPair_getElem r.table_discussions i
    constructor
    · rw [show (buildDoc r).drop 5
          = r.table_discussions.flatMap
              (fun td => [DocElem.heading 2 td.1, DocElem.para td.2]) by
        simp [buildDoc]]
      exact h.1
    · rw [show (buildDoc r).drop 5
          = r.table_discussions.flatMap
              (fun td => [DocElem.heading 2 td.1, DocElem.para td.2]) by
        simp [buildDoc]]
      exact h.2
  · simp [analyze, export_word]

/-- The double loop over `i < j` produces `C(k, 2)` pairs. -/
theorem length_orderedPairs {α : Type} : ∀ l : List α,
    (orderedPairs l).length = l.length.choose 2
  | [] => rfl
  | x :: rest => by
    simp only [orderedPairs, List.length_append, List.length_map,
      length_orderedPairs rest, List.length_cons, Nat.choose_succ_succ,
      Nat.choose_one_right]
    try omega

/-- `ttest_results` has `C(k, 2)` entries for `k` numeric columns. -/
theorem length_ttestResults (num : List (String × List (Option ℚ))) :
    (ttestResults num).length = num.length.choose 2 := by
  simp [ttestResults, length_orderedPairs]

/-- `ttest_results` is empty exactly when fewer than two numeric columns
exist. -/
theorem ttestResults_eq_nil_iff (num : List (String × List (Option ℚ))) :
    ttestResults num = [] ↔ num.length < 2 := by
  rw [← List.length_eq_zero, length_ttestResults, Nat.choose_eq_zero_iff]

/-- On an uploaded frame (zero rows force zero numeric columns),
`numeric.empty` reduces to "no numeric column exists". -/
theorem numericEmpty_uploaded {df : DataFrame} (h : df.Uploaded) :
    numericEmpty df = df.numericCols.isEmpty := by
  rcases h with ⟨-, -, hz⟩
  unfold numericEmpty
  by_cases h0 : df.nrows = 0
  · simp [h0, hz h0]
  · simp [h0]

/-- Mapping a function of the value over `enum` forgets the indices. -/
theorem enum_map_val {α β : Type} (l : List α) (g : α → β) :
    l.enum.map (fun ic => g ic.2) = l.map g := by
  rw [show (fun ic : ℕ × α => g ic.2) = g ∘ Prod.snd from rfl,
    ← List.map_map, List.enum_map_snd]

/-- Taking the first components of an enumerated pair list forgets the
indices. -/
theorem enum_map_fst_pair {α β γ : Type} (l : List α) (g : α → β)
    (f : ℕ × α → γ) :
    List.map (Prod.fst ∘ fun ic : ℕ × α => (g ic.2, f ic)) l.enum
      = List.map g l := by
  rw [show (Prod.fst ∘ fun ic : ℕ × α => (g ic.2, f ic))
      = (fun ic : ℕ × α => g ic.2) from rfl]
  exact enum_map_val l g

/-- C1: for every uploaded table the discussion list has exactly
`1 + (1 if a numeric column exists) + (#categorical columns) +
(1 if ≥2 numeric columns) + (1 if ≥2 numeric columns)` entries, in the fixed
order raw data, statistical summary (if present), one entry per categorical
column in column order, correlation (if present), pairwise tests
(if present). -/
theorem discussions_count_and_order (svc : ℕ → Except Unit String)
    (df : DataFrame) (t o p : String) (h : df.Uploaded) :
    (analyzeCore svc df t o p).table_discussions.map Prod.fst
      = ["Table A. Raw Data"]
        ++ (if df.numericCols ≠ [] then ["Table B. Statistical Summary"] else [])
        ++ df.categoricalCols.map
            (fun c => "Table C. Frequency Distribution of " ++ c.1)
        ++ (if 2 ≤ df.numericCols.length then ["Correlation Matrix"] else [])
        ++ (if 2 ≤ df.numericCols.length then ["T-Test Results"] else [])
    ∧ (analyzeCore svc df t o p).table_discussions.length
      = 1 + (if df.numericCols ≠ [] then 1 else 0)
        + df.categoricalCols.length
        + (if 2 ≤ df.numericCols.length then 1 else 0)
        + (if 2 ≤ df.numericCols.length then 1 else 0) := by
  have hne := numericEmpty_uploaded h
  by_cases hnum : df.numericCols = []
  · have hne' : numericEmpty df = true := by simp [hne, hnum]
    have hlen : ¬ 2 ≤ df.numericCols.length := by simp [hnum]
    constructor
    · simp [analyzeCore, hne', hnum, hlen, ttestResults, orderedPairs,
        if_neg hlen]
      exact enum_map_fst_pair df.categoricalCols
        (fun c => "Table C. Frequency Distribution of " ++ c.1)
        (fun ic => ai_generate_discussion (svc (1 + ic.1)))
    · simp [analyzeCore, hne', hnum, hlen, ttestResults, orderedPairs,
        if_neg hlen]
      try omega
  · have hne' : numericEmpty df = false := by
      simp [hne, List.isEmpty_iff, hnum]
    by_cases hlen : 2 ≤ df.numericCols.length
    · have hlt : 1 < df.numericCols.length := hlen
      have htt : ¬ ttestResults df.numericCols = [] := by
        rw [ttestResults_eq_nil_iff]; omega
      have htt' : (ttestResults df.numericCols).isEmpty = false := by
        simp [List.isEmpty_iff, htt]
      constructor
      · simp [analyzeCore, hne', hnum, hlt, htt', if_pos hlen]
        exact enum_map_fst_pair df.categoricalCols
          (fun c => "Table C. Frequency Distribution of " ++ c.1)
          (fun ic => ai_generate_discussion (svc (2 + ic.1)))
      · simp [analyzeCore, hne', hnum, hlt, htt', if_pos hlen]
        try omega
    · have hlt : ¬ 1 < df.numericCols.length := hlen
      have htt : ttestResults df.numericCols = [] := by
        rw [ttestResults_eq_nil_iff]; omega
      have htt' : (ttestResults df.numericCols).isEmpty = true := by
        simp [List.isEmpty_iff, htt]
      constructor
      · simp [analyzeCore, hne', hnum, hlt, htt', if_neg hlen]
        exact enum_map_fst_pair df.categoricalCols
          (fun c => "Table C. Frequency Distribution of " ++ c.1)
          (fun ic => ai_generate_discussion (svc (2 + ic.1)))
      · simp [analyzeCore, hne', hnum, hlt, htt', if_neg hlen]
        try omega

/-- Witness for C1: on the spec §8 example frame (one numeric, one
categorical column) the discussion list is raw data, statistical summary,
and one frequency entry, three entries in all. -/
theorem discussions_count_and_order_witness :
    exDf.Uploaded
    ∧ (analyzeCore svcAllOk exDf "t" "o" "p").table_discussions.map Prod.fst
      = ["Table A. Raw Data"]
        ++ (if exDf.numericCols ≠ [] then ["Table B. Statistical Summary"] else [])
        ++ exDf.categoricalCols.map
            (fun c => "Table C. Frequency Distribution of " ++ c.1)
        ++ (if 2 ≤ exDf.numericCols.length then ["Correlation Matrix"] else [])
        ++ (if 2 ≤ exDf.numericCols.length then ["T-Test Results"] else [])
    ∧ (analyzeCore svcAllOk exDf "t" "o" "p").table_discussions.length
      = 1 + (if exDf.numericCols ≠ [] then 1 else 0)
        + exDf.categoricalCols.length
        + (if 2 ≤ exDf.numericCols.length then 1 else 0)
        + (if 2 ≤ exDf.numericCols.length then 1 else 0) := by
  exact ⟨exDf_uploaded,
    discussions_count_and_order svcAllOk exDf "t" "o" "p" exDf_uploaded⟩

/-- Enumerating the frequency titles from offset `n` matches the indices the
source uses for the frequency completion calls. -/
theorem map_ai_enumFrom_freq (svc : ℕ → Except Unit String)
    (l : List (String × List (Option String))) (n : ℕ) :
    ((l.map (fun c => "Table C. Frequency Distribution of " ++ c.1)).enumFrom n).map
        (fun ic => (ic.2, ai_generate_discussion (svc ic.1)))
      = l.enum.map (fun ic =>
          ("Table C. Frequency Distribution of " ++ ic.2.1,
           ai_generate_discussion (svc (n + ic.1)))) := by
  rw [List.enumFrom_map, List.map_map, List.enumFrom_eq_map_enum, List.map_map]
  refine List.map_congr_left (fun ic _ => ?_)
  simp [Prod.map, Nat.add_comm]

/-- The discussion list is the title list enumerated against the oracle: the
entry at position `k` pairs the `k`-th title with the outcome of completion
call `k`. -/
theorem discussions_eq (svc : ℕ → Except Unit String) (df : DataFrame)
    (t o p : String) :
    (analyzeCore svc df t o p).table_discussions
      = (discTitles df).enum.map
          (fun ic => (ic.2, ai_generate_discussion (svc ic.1))) := by
  by_cases hne : numericEmpty df
  · by_cases hlt : 1 < df.numericCols.length
    · have htt' : (ttestResults df.numericCols).isEmpty = false := by
        simp [List.isEmpty_iff, ttestResults_eq_nil_iff]; omega
      simp [analyzeCore, discTitles, hne, hlt, htt', map_ai_enumFrom_freq svc,
        List.enumFrom_append, List.enum_cons]
    · have htt' : (ttestResults df.numericCols).isEmpty = true := by
        simp [List.isEmpty_iff, ttestResults_eq_nil_iff]; omega
      simp [analyzeCore, discTitles, hne, hlt, htt', map_ai_enumFrom_freq svc,
        List.enumFrom_append, List.enum_cons]
  · by_cases hlt : 1 < df.numericCols.length
    · have htt' : (ttestResults df.numericCols).isEmpty = false := by
        simp [List.isEmpty_iff, ttestResults_eq_nil_iff]; omega
      simp [analyzeCore, discTitles, hne, hlt, htt', map_ai_enumFrom_freq svc,
        List.enumFrom_append, List.enum_cons]
    · have htt' : (ttestResults df.numericCols).isEmpty = true := by
        simp [List.isEmpty_iff, ttestResults_eq_nil_iff]; omega
      simp [analyzeCore, discTitles, hne, hlt, htt', map_ai_enumFrom_freq svc,
        List.enumFrom_append, List.enum_cons]

/-- C2: if the external completion call for a table fails, that table's
discussion is exactly the fixed fallback string, and the discussions of all
other tables are unaffected: an oracle differing only in the failed call
yields identical entries at every other position. -/
theorem fallback_isolation (svc svc' : ℕ → Except Unit String)
    (df : DataFrame) (t o p : String) (j : ℕ)
    (hfail : svc j = .error ())
    (hagree : ∀ i, i ≠ j → svc' i = svc i) :
    (∀ e, ((analyzeCore svc df t o p).table_discussions)[j]? = some e →
        e.2 = fallbackText)
    ∧ ∀ i, i ≠ j →
        ((analyzeCore svc' df t o p).table_discussions)[i]?
          = ((analyzeCore svc df t o p).table_discussions)[i]? := by
  constructor
  · intro e he
    rw [discussions_eq, List.getElem?_map, List.getElem?_enum] at he
    cases h : (discTitles df)[j]? with
    | none => rw [h] at he; simp at he
    | some ti =>
      rw [h] at he
      simp only [Option.map_some'] at he
      cases he
      simp [ai_generate_discussion, hfail]
  · intro i hi
    rw [discussions_eq, discussions_eq, List.getElem?_map, List.getElem?_map,
      List.getElem?_enum]
    cases (discTitles df)[i]? <;> simp [hagree i hi]

/-- Witness for C2: on the example frame, with an oracle failing on call 0,
the raw-data discussion is the fallback text and an oracle succeeding on
call 0 leaves every other entry unchanged. -/
theorem fallback_isolation_witness :
    svcFail0 0 = .error ()
    ∧ (∀ i, i ≠ 0 → svcAlt0 i = svcFail0 i)
    ∧ ((∀ e, ((analyzeCore svcFail0 exDf "t" "o" "p").table_discussions)[0]?
          = some e → e.2 = fallbackText)
      ∧ ∀ i, i ≠ 0 →
          ((analyzeCore svcAlt0 exDf "t" "o" "p").table_discussions)[i]?
            = ((analyzeCore svcFail0 exDf "t" "o" "p").table_discussions)[i]?) :=
  ⟨rfl, fun i hi => by simp [svcAlt0, svcFail0, hi],
   fallback_isolation svcFail0 svcAlt0 exDf "t" "o" "p" 0 rfl
     (fun i hi => by simp [svcAlt0, svcFail0, hi])⟩

/-- Both members of an ordered pair come from the list. -/
theorem orderedPairs_mem {α : Type} :
    ∀ {l : List α} {p : α × α}, p ∈ orderedPairs l → p.1 ∈ l ∧ p.2 ∈ l := by
  intro l
  induction l with
  | nil => intro p hp; simp [orderedPairs] at hp
  | cons x rest ih =>
    intro p hp
    rcases List.mem_append.1 hp with hh | ht
    · rcases List.mem_map.1 hh with ⟨y, hy, rfl⟩
      exact ⟨List.mem_cons_self x rest, List.mem_cons_of_mem x hy⟩
    · exact ⟨List.mem_cons_of_mem x (ih ht).1, List.mem_cons_of_mem x (ih ht).2⟩

/-- `orderedPairs` commutes with `map`. -/
theorem orderedPairs_map {α β : Type} (f : α → β) :
    ∀ l : List α,
      orderedPairs (l.map f) = (orderedPairs l).map (fun p => (f p.1, f p.2))
  | [] => rfl
  | x :: rest => by
    simp [orderedPairs, orderedPairs_map f rest, List.map_map, Function.comp]

/-- On a duplicate-free list, no ordered pair is a self-pair. -/
theorem orderedPairs_ne {α : Type} :
    ∀ {l : List α}, l.Nodup → ∀ p ∈ orderedPairs l, p.1 ≠ p.2 := by
  intro l
  induction l with
  | nil => intro _ p hp; simp [orderedPairs] at hp
  | cons x rest ih =>
    rintro hnd ⟨a, b⟩ hp
    rcases List.mem_append.1 hp with hh | ht
    · rcases List.mem_map.1 hh with ⟨y, hy, heq⟩
      injection heq with h1 h2
      subst h1; subst h2
      show x ≠ y
      intro hxy
      exact (List.nodup_cons.1 hnd).1 (hxy.symm ▸ hy)
    · exact ih (List.nodup_cons.1 hnd).2 _ ht

/-- On a duplicate-free list the ordered pairs are duplicate-free. -/
theorem orderedPairs_nodup {α : Type} :
    ∀ {l : List α}, l.Nodup → (orderedPairs l).Nodup := by
  intro l
  induction l with
  | nil => intro _; simp [orderedPairs]
  | cons x rest ih =>
    intro hnd
    rcases List.nodup_cons.1 hnd with ⟨hx, hrest⟩
    refine List.Nodup.append ?_ (ih hrest) ?_
    · exact hrest.map (fun a b hab => (Prod.mk.injEq _ _ _ _ ▸ hab : _ ∧ _).2)
    · intro p hp hq
      rcases List.mem_map.1 hp with ⟨y, -, rfl⟩
      exact hx (orderedPairs_mem hq).1

/-- On a duplicate-free list an ordered pair never also occurs swapped. -/
theorem orderedPairs_not_swap {α : Type} :
    ∀ {l : List α}, l.Nodup → ∀ p ∈ orderedPairs l, (p.2, p.1) ∉ orderedPairs l := by
  intro l
  induction l with
  | nil => intro _ p hp; simp [orderedPairs] at hp
  | cons x rest ih =>
    rintro hnd ⟨a, b⟩ hp hswap
    rcases List.nodup_cons.1 hnd with ⟨hx, hrest⟩
    rcases List.mem_append.1 hp with hh | ht
    · rcases List.mem_map.1 hh with ⟨y, hy, heq⟩
      injection heq with h1 h2
      subst h1; subst h2
      rcases List.mem_append.1 hswap with hh2 | ht2
      · rcases List.mem_map.1 hh2 with ⟨z, hz, heq2⟩
        have hxy : x = y := congrArg Prod.fst heq2
        exact hx (hxy ▸ hy)
      · exact hx (orderedPairs_mem ht2).2
    · rcases List.mem_append.1 hswap with hh2 | ht2
      · rcases List.mem_map.1 hh2 with ⟨z, hz, heq2⟩
        have hbx : b = x := (congrArg Prod.fst heq2).symm
        exact hx (hbx ▸ (orderedPairs_mem ht).2)
      · exact ih hrest _ ht ht2

/-- Every index pair `i < j` contributes its ordered pair. -/
theorem orderedPairs_complete {α : Type} :
    ∀ (l : List α) (i j : ℕ), i < j → ∀ (a b : α), l[i]? = some a → l[j]? = some b →
      (a, b) ∈ orderedPairs l := by
  intro l
  induction l with
  | nil => intro i j _ a b ha _; simp at ha
  | cons x rest ih =>
    intro i j hij a b ha hb
    cases i with
    | zero =>
      cases j with
      | zero => omega
      | succ j =>
        simp only [List.getElem?_cons_zero, Option.some.injEq] at ha
        simp only [List.getElem?_cons_succ] at hb
        have hbm : b ∈ rest := by
          rw [List.mem_iff_getElem?]; exact ⟨j, hb⟩
        exact List.mem_append.2 (Or.inl (List.mem_map.2 ⟨b, hbm, by rw [ha]⟩))
    | succ i =>
      cases j with
      | zero => omega
      | succ j =>
        simp only [List.getElem?_cons_succ] at ha hb
        exact List.mem_append.2 (Or.inr (ih i j (by omega) a b ha hb))

/-- Every ordered pair arises from indices `i < j` of the list. -/
theorem orderedPairs_indices {α : Type} :
    ∀ {l : List α} {p : α × α}, p ∈ orderedPairs l →
      ∃ i j : ℕ, i < j ∧ l[i]? = some p.1 ∧ l[j]? = some p.2 := by
  intro l
  induction l with
  | nil => intro p hp; simp [orderedPairs] at hp
  | cons x rest ih =>
    intro p hp
    rcases List.mem_append.1 hp with hh | ht
    · rcases List.mem_map.1 hh with ⟨y, hy, rfl⟩
      rcases List.getElem?_of_mem hy with ⟨j, hj⟩
      exact ⟨0, j + 1, by omega, by simp, by simpa using hj⟩
    · rcases ih ht with ⟨i, j, hij, ha, hb⟩
      exact ⟨i + 1, j + 1, by omega, by simpa using ha, by simpa using hb⟩

/-- The numeric column names are a sublist of all column names. -/
theorem numericCols_names_sublist (df : DataFrame) :
    (df.numericCols.map Prod.fst).Sublist (df.cols.map Prod.fst) := by
  unfold DataFrame.numericCols
  induction df.cols with
  | nil => simp
  | cons c rest ih =>
    cases c with
    | mk nm cd =>
      cases cd with
      | numeric vs => simpa using ih.cons₂ nm
      | categorical vs => simpa using ih.cons nm

/-- Names of numeric columns of an uploaded frame are distinct. -/
theorem numericCols_names_nodup {df : DataFrame} (h : df.Uploaded) :
    (df.numericCols.map Prod.fst).Nodup :=
  h.2.1.sublist (numericCols_names_sublist df)

/-- C3: the pairwise test list holds exactly `k·(k−1)/2` Welch tests for `k`
numeric columns — the name pairs are exactly the ordered pairs `i < j` of the
numeric column names in column order, with no self-pairs, no repeated pair,
no unordered duplicate, one test for every index pair, and the list is empty
when `k < 2`. -/
theorem ttest_pair_structure (df : DataFrame) (h : df.Uploaded) :
    (ttestResults df.numericCols).length
      = df.numericCols.length * (df.numericCols.length - 1) / 2
    ∧ (df.numericCols.length < 2 → ttestResults df.numericCols = [])
    ∧ (ttestResults df.numericCols).map (fun e => (e.var1, e.var2))
      = orderedPairs (df.numericCols.map Prod.fst)
    ∧ (∀ e ∈ ttestResults df.numericCols, e.var1 ≠ e.var2)
    ∧ ((ttestResults df.numericCols).map (fun e => (e.var1, e.var2))).Nodup
    ∧ (∀ e ∈ ttestResults df.numericCols, ∀ e' ∈ ttestResults df.numericCols,
        ¬ (e.var1 = e'.var2 ∧ e.var2 = e'.var1))
    ∧ (∀ i j : ℕ, i < j → ∀ a b : String,
        (df.numericCols.map Prod.fst)[i]? = some a →
        (df.numericCols.map Prod.fst)[j]? = some b →
        ∃ e ∈ ttestResults df.numericCols, e.var1 = a ∧ e.var2 = b)
    ∧ (∀ e ∈ ttestResults df.numericCols, ∃ i j : ℕ, i < j
        ∧ (df.numericCols.map Prod.fst)[i]? = some e.var1
        ∧ (df.numericCols.map Prod.fst)[j]? = some e.var2) := by
  have hnames : (ttestResults df.numericCols).map (fun e => (e.var1, e.var2))
      = orderedPairs (df.numericCols.map Prod.fst) := by
    rw [orderedPairs_map, ttestResults, List.map_map]
    rfl
  have hnd := numericCols_names_nodup h
  refine ⟨?_, ?_, hnames, ?_, ?_, ?_, ?_, ?_⟩
  · rw [length_ttestResults, Nat.choose_two_right]
  · intro hk; exact (ttestResults_eq_nil_iff _).2 hk
  · intro e he
    have hm : (e.var1, e.var2) ∈ orderedPairs (df.numericCols.map Prod.fst) := by
      rw [← hnames]; exact List.mem_map.2 ⟨e, he, rfl⟩
    exact orderedPairs_ne hnd _ hm
  · rw [hnames]; exact orderedPairs_nodup hnd
  · intro e he e' he' hc
    have hm : (e.var1, e.var2) ∈ orderedPairs (df.numericCols.map Prod.fst) := by
      rw [← hnames]; exact List.mem_map.2 ⟨e, he, rfl⟩
    have hm' : (e'.var1, e'.var2) ∈ orderedPairs (df.numericCols.map Prod.fst) := by
      rw [← hnames]; exact List.mem_map.2 ⟨e', he', rfl⟩
    have := orderedPairs_not_swap hnd _ hm
    rw [show ((e.var1, e.var2).2, (e.var1, e.var2).1) = (e'.var1, e'.var2) by
      simp [hc.1, hc.2]] at this
    exact this hm'
  · intro i j hij a b ha hb
    have hm := orderedPairs_complete (df.numericCols.map Prod.fst) i j hij a b ha hb
    rw [← hnames] at hm
    rcases List.mem_map.1 hm with ⟨e, he, heq⟩
    exact ⟨e, he, congrArg Prod.fst heq, congrArg Prod.snd heq⟩
  · intro e he
    have hm : (e.var1, e.var2) ∈ orderedPairs (df.numericCols.map Prod.fst) := by
      rw [← hnames]; exact List.mem_map.2 ⟨e, he, rfl⟩
    exact orderedPairs_indices hm

/-- Witness for C3 at a concrete frame with three numeric columns. -/
theorem ttest_pair_structure_witness :
    exDf3.Uploaded
    ∧ (ttestResults exDf3.numericCols).length
      = exDf3.numericCols.length * (exDf3.numericCols.length - 1) / 2
    ∧ (ttestResults exDf3.numericCols).map (fun e => (e.var1, e.var2))
      = orderedPairs (exDf3.numericCols.map Prod.fst) := by
  have hu : exDf3.Uploaded := by
    refine ⟨fun c hc => ?_, by decide, fun h0 => absurd h0 (by decide)⟩
    fin_cases hc <;> rfl
  have h := ttest_pair_structure exDf3 hu
  exact ⟨hu, h.1, h.2.2.1⟩

/-- Discrete Cauchy–Schwarz with the all-ones vector: `(Σx)² ≤ n·Σx²`. -/
theorem sq_sum_le_card_mul_sum_sq : ∀ l : List ℚ,
    l.sum * l.sum ≤ (l.length : ℚ) * (l.map (fun x => x * x)).sum := by
  intro l
  induction l with
  | nil => simp
  | cons x l ih =>
    simp only [List.sum_cons, List.length_cons, List.map_cons, Nat.cast_add,
      Nat.cast_one]
    by_cases hl : l = []
    · subst hl
      simp only [List.sum_nil, List.length_nil, List.map_nil, Nat.cast_zero]
      nlinarith [sq_nonneg x]
    · have hn1 : (1 : ℚ) ≤ (l.length : ℚ) := by
        have := List.length_pos.2 hl
        exact_mod_cast this
      have hn : (0 : ℚ) ≤ (l.length : ℚ) := by positivity
      nlinarith [sq_nonneg ((l.length : ℚ) * x - l.sum), sq_nonneg x, ih, hn,
        hn1, mul_nonneg hn (sq_nonneg x)]

/-- The sum-of-squared-deviations term of a column against itself is
nonnegative. -/
theorem ssX_nonneg (ps : List (ℚ × ℚ)) : 0 ≤ ssX ps := by
  unfold ssX
  have h := sq_sum_le_card_mul_sum_sq (ps.map Prod.fst)
  simp only [List.length_map, List.map_map] at h
  calc (0 : ℚ) ≤ (ps.length : ℚ) * (ps.map (fun p => p.1 * p.1)).sum
        - (ps.map Prod.fst).sum * (ps.map Prod.fst).sum := by
        have : (List.map ((fun x => x * x) ∘ Prod.fst) ps)
            = List.map (fun p : ℚ × ℚ => p.1 * p.1) ps := rfl
        rw [this] at h
        linarith
    _ = _ := rfl

/-- Swapping the column order swaps the valid pairs. -/
theorem validPairs_swap (xs ys : List (Option ℚ)) :
    validPairs ys xs = (validPairs xs ys).map Prod.swap := by
  unfold validPairs
  rw [← List.zip_swap xs ys, List.filterMap_map, List.map_filterMap]
  refine List.filterMap_congr (fun p _ => ?_)
  rcases p with ⟨oa, ob⟩
  cases oa <;> cases ob <;> rfl

/-- `ssX` of the swapped pairs is `ssY`. -/
theorem ssX_map_swap (ps : List (ℚ × ℚ)) : ssX (ps.map Prod.swap) = ssY ps := by
  unfold ssX ssY
  simp only [List.map_map, List.length_map]
  rfl

/-- `ssY` of the swapped pairs is `ssX`. -/
theorem ssY_map_swap (ps : List (ℚ × ℚ)) : ssY (ps.map Prod.swap) = ssX ps := by
  unfold ssX ssY
  simp only [List.map_map, List.length_map]
  rfl

/-- `spXY` of the swapped pairs is `spXY`. -/
theorem spXY_map_swap (ps : List (ℚ × ℚ)) : spXY (ps.map Prod.swap) = spXY ps := by
  unfold spXY
  simp only [List.map_map, List.length_map]
  have h1 : List.map ((fun p : ℚ × ℚ => p.1 * p.2) ∘ Prod.swap) ps
      = List.map (fun p : ℚ × ℚ => p.1 * p.2) ps :=
    List.map_congr_left (fun p _ => mul_comm p.2 p.1)
  have h2 : List.map (Prod.fst ∘ (Prod.swap : ℚ × ℚ → ℚ × ℚ)) ps
      = List.map Prod.snd ps := rfl
  have h3 : List.map (Prod.snd ∘ (Prod.swap : ℚ × ℚ → ℚ × ℚ)) ps
      = List.map Prod.fst ps := rfl
  rw [h1, h2, h3, mul_comm ((ps.map Prod.snd).sum) ((ps.map Prod.fst).sum)]

/-- The Pearson entry is symmetric in its two columns. -/
theorem corrEntry_symm (xs ys : List (Option ℚ)) :
    corrEntry xs ys = corrEntry ys xs := by
  simp only [corrEntry]
  rw [validPairs_swap xs ys, ssX_map_swap, ssY_map_swap, spXY_map_swap,
    List.length_map, mul_comm (ssY (validPairs xs ys)) (ssX (validPairs xs ys))]

/-- The valid pairs of a column with itself are its non-missing values,
doubled. -/
theorem validPairs_self : ∀ xs : List (Option ℚ),
    validPairs xs xs = (dropna xs).map (fun a => (a, a))
  | [] => rfl
  | none :: xs => by
    simpa [validPairs, dropna, List.zip_cons_cons] using validPairs_self xs
  | some a :: xs => by
    simpa [validPairs, dropna, List.zip_cons_cons] using validPairs_self xs

/-- `spXY` on diagonal pairs coincides with `ssX`. -/
theorem spXY_diag (l : List ℚ) :
    spXY (l.map (fun a => (a, a))) = ssX (l.map (fun a => (a, a))) := by
  unfold spXY ssX
  simp only [List.map_map, List.length_map]
  rfl

/-- `ssY` on diagonal pairs coincides with `ssX`. -/
theorem ssY_diag (l : List ℚ) :
    ssY (l.map (fun a => (a, a))) = ssX (l.map (fun a => (a, a))) := by
  unfold ssY ssX
  simp only [List.map_map, List.length_map]
  rfl

/-- A column with at least one present value and nonzero squared-deviation
sum has a diagonal Pearson entry representing exactly `1.0`. -/
theorem corrEntry_self_isOne (xs : List (Option ℚ))
    (h1 : validPairs xs xs ≠ []) (h2 : ssX (validPairs xs xs) ≠ 0) :
    IsOneRepr (corrEntry xs xs) := by
  have hpos : 0 < ssX (validPairs xs xs) :=
    lt_of_le_of_ne (ssX_nonneg _) (Ne.symm h2)
  have hlen : ¬ (validPairs xs xs).length = 0 := by
    simpa [List.length_eq_zero] using h1
  have hSS : ¬ ssX (validPairs xs xs) * ssY (validPairs xs xs) = 0 := by
    have hy : ssY (validPairs xs xs) = ssX (validPairs xs xs) := by
      rw [validPairs_self, ssY_diag]
    rw [hy]
    exact mul_ne_zero h2 h2
  have hsp : spXY (validPairs xs xs) = ssX (validPairs xs xs) := by
    rw [validPairs_self, spXY_diag]
  have hy : ssY (validPairs xs xs) = ssX (validPairs xs xs) := by
    rw [validPairs_self, ssY_diag]
  have hSS2 : ¬ ssX (validPairs xs xs) * ssX (validPairs xs xs) = 0 :=
    mul_ne_zero h2 h2
  refine ⟨ssX (validPairs xs xs),
          ssX (validPairs xs xs) * ssX (validPairs xs xs), ?_, hpos, rfl⟩
  simp only [corrEntry, hlen, hSS, if_false, hsp, hy]
  rw [if_neg hSS2]

/-- C4 (amended): the correlation matrix is produced iff at least two numeric
columns exist; it is always symmetric (`corr[a][b] = corr[b][a]`); and the
diagonal entry of a column is exactly `1.0` whenever the column has at least
one present value and nonzero squared-deviation sum (non-degenerate) — a
constant or empty column instead yields a `NaN` diagonal entry. -/
theorem corr_matrix_properties (svc : ℕ → Except Unit String)
    (df : DataFrame) (t o p : String) :
    ((analyzeCore svc df t o p).corr_rows ≠ none ↔ 2 ≤ df.numericCols.length)
    ∧ ((analyzeCore svc df t o p).corr_cols ≠ none ↔ 2 ≤ df.numericCols.length)
    ∧ (∀ i j : ℕ, ∀ ri rj,
        (corrRows df.numericCols)[i]? = some ri →
        (corrRows df.numericCols)[j]? = some rj →
        ri.2[j]? = rj.2[i]?)
    ∧ (∀ i : ℕ, ∀ c, df.numericCols[i]? = some c →
        validPairs c.2 c.2 ≠ [] → ssX (validPairs c.2 c.2) ≠ 0 →
        ∃ ri, (corrRows df.numericCols)[i]? = some ri
          ∧ ri.2[i]? = some (corrEntry c.2 c.2)
          ∧ IsOneRepr (corrEntry c.2 c.2)) := by
  have hcr : (analyzeCore svc df t o p).corr_rows
      = (if 1 < df.numericCols.length
         then some (corrRows df.numericCols) else none) := rfl
  have hcc : (analyzeCore svc df t o p).corr_cols
      = (if 1 < df.numericCols.length
         then some (df.numericCols.map Prod.fst) else none) := rfl
  refine ⟨?_, ?_, ?_, ?_⟩
  · by_cases h : 1 < df.numericCols.length
    · simp only [hcr, if_pos h]
      exact ⟨fun _ => h, fun _ => by simp⟩
    · simp only [hcr, if_neg h]
      exact ⟨fun hc => absurd rfl hc, fun hc => absurd hc h⟩
  · by_cases h : 1 < df.numericCols.length
    · simp only [hcc, if_pos h]
      exact ⟨fun _ => h, fun _ => by simp⟩
    · simp only [hcc, if_neg h]
      exact ⟨fun hc => absurd rfl hc, fun hc => absurd hc h⟩
  · intro i j ri rj hi hj
    unfold corrRows at hi hj
    rw [List.getElem?_map] at hi hj
    cases hci : df.numericCols[i]? with
    | none => rw [hci] at hi; simp at hi
    | some ci =>
      cases hcj : df.numericCols[j]? with
      | none => rw [hcj] at hj; simp at hj
      | some cj =>
        rw [hci] at hi
        rw [hcj] at hj
        simp only [Option.map_some'] at hi hj
        cases hi
        cases hj
        simp only [List.getElem?_map, hci, hcj, Option.map_some']
        rw [corrEntry_symm]
  · intro i c hci h1 h2
    refine ⟨(c.1, df.numericCols.map (fun cj => corrEntry c.2 cj.2)), ?_, ?_, ?_⟩
    · unfold corrRows
      rw [List.getElem?_map, hci]
      rfl
    · simp only [List.getElem?_map, hci, Option.map_some']
    · exact corrEntry_self_isOne c.2 h1 h2

/-- Witness for C4 (amended): on a frame with three non-constant numeric
columns the (0,0) entry exists and represents exactly `1.0`. -/
theorem corr_matrix_properties_witness :
    exDf3.numericCols[0]? = some ("a", [some 1, some 2, some 3])
    ∧ validPairs [some (1:ℚ), some 2, some 3] [some 1, some 2, some 3] ≠ []
    ∧ ssX (validPairs [some (1:ℚ), some 2, some 3] [some 1, some 2, some 3]) ≠ 0
    ∧ ∃ ri, (corrRows exDf3.numericCols)[0]? = some ri
        ∧ ri.2[0]?
          = some (corrEntry [some (1:ℚ), some 2, some 3] [some 1, some 2, some 3])
        ∧ IsOneRepr
            (corrEntry [some (1:ℚ), some 2, some 3] [some 1, some 2, some 3]) := by
  refine ⟨rfl, by decide,
    by norm_num [validPairs, ssX, List.zip_cons_cons, List.filterMap_cons], ?_⟩
  exact (corr_matrix_properties svcAllOk exDf3 "t" "o" "p").2.2.2 0
    ("a", [some 1, some 2, some 3]) rfl (by decide)
    (by norm_num [validPairs, ssX, List.zip_cons_cons, List.filterMap_cons])

/-- C4 counterexample: on an uploaded frame whose numeric column `x` is
constant, the matrix is produced (two numeric columns) but the diagonal
entry for `x` is `NaN` (`none`), not `1.0` — the claim that every diagonal
entry equals `1.0` fails on this input. -/
theorem corr_diag_counterexample :
    exDf2.Uploaded
    ∧ 2 ≤ exDf2.numericCols.length
    ∧ (analyzeCore svcAllOk exDf2 "t" "o" "p").corr_rows
        = some (corrRows exDf2.numericCols)
    ∧ ((corrRows exDf2.numericCols)[0]?).map (fun r => r.2[0]?)
        = some (some none)
    ∧ ¬ IsOneRepr none := by
  refine ⟨⟨fun c hc => ?_, by decide, fun h0 => absurd h0 (by decide)⟩,
    by decide, rfl, ?_, ?_⟩
  · fin_cases hc <;> rfl
  · have hxx : corrEntry [some (1:ℚ), some 1] [some 1, some 1] = none := by
      norm_num [corrEntry, validPairs, ssX, ssY, List.zip_cons_cons,
        List.filterMap_cons]
    simp [corrRows, DataFrame.numericCols, exDf2, List.filterMap_cons, hxx]
  · rintro ⟨sp, dsq, h, -⟩
    simp at h

/-- A column with vanishing squared-deviation sum (constant or empty after
`dropna`) has a `NaN` diagonal Pearson entry. -/
theorem corrEntry_self_degenerate (xs : List (Option ℚ))
    (h : ssX (validPairs xs xs) = 0) : corrEntry xs xs = none := by
  simp only [corrEntry]
  by_cases hlen : (validPairs xs xs).length = 0
  · rw [if_pos hlen]
  · rw [if_neg hlen, if_pos (by rw [h, zero_mul])]

/-- C7 (amended): the code has no `ComputationError` path — on every input,
degenerate or not, the `POST` analysis completes, renders the results page
and stores the full report; a numeric column with zero variance contributes
a `NaN` correlation diagonal entry instead of failing the analysis. -/
theorem degenerate_statistics_do_not_fail (svc : ℕ → Except Unit String)
    (df : DataFrame) (t o p : String) (s0 : Option Report) :
    (analyze svc "POST" (some (df, t, o, p)) s0).1
      = some (AnalyzeResponse.resultsPage (analyzeCore svc df t o p))
    ∧ (analyze svc "POST" (some (df, t, o, p)) s0).2
      = some (analyzeCore svc df t o p)
    ∧ (∀ i : ℕ, ∀ c, df.numericCols[i]? = some c →
        ssX (validPairs c.2 c.2) = 0 →
        ∃ ri, (corrRows df.numericCols)[i]? = some ri
          ∧ ri.2[i]? = some none) := by
  refine ⟨rfl, rfl, fun i c hci hss => ?_⟩
  refine ⟨(c.1, df.numericCols.map (fun cj => corrEntry c.2 cj.2)), ?_, ?_⟩
  · unfold corrRows
    rw [List.getElem?_map, hci]
    rfl
  · simp only [List.getElem?_map, hci, Option.map_some',
      corrEntry_self_degenerate c.2 hss]

/-- Witness for C7 (amended): the constant column `x` of `exDf2` yields a
stored report whose correlation diagonal entry for `x` is `NaN`. -/
theorem degenerate_statistics_do_not_fail_witness :
    exDf2.numericCols[0]? = some ("x", [some 1, some 1])
    ∧ ssX (validPairs [some (1:ℚ), some 1] [some 1, some 1]) = 0
    ∧ ∃ ri, (corrRows exDf2.numericCols)[0]? = some ri
        ∧ ri.2[0]? = some none := by
  refine ⟨rfl,
    by norm_num [validPairs, ssX, List.zip_cons_cons, List.filterMap_cons], ?_⟩
  exact (degenerate_statistics_do_not_fail svcAllOk exDf2 "t" "o" "p" none).2.2
    0 ("x", [some 1, some 1]) rfl
    (by norm_num [validPairs, ssX, List.zip_cons_cons, List.filterMap_cons])

/-- C7 counterexample: on the uploaded frame with a constant numeric column
the analysis does not fail with any error — it renders the results page,
stores the complete report (all four discussions present), and silently
emits a `NaN` correlation entry. -/
theorem no_computation_error_counterexample :
    exDf2.Uploaded
    ∧ (analyze svcAllOk "POST" (some (exDf2, "t", "o", "p")) none).1
      = some (AnalyzeResponse.resultsPage (analyzeCore svcAllOk exDf2 "t" "o" "p"))
    ∧ (analyze svcAllOk "POST" (some (exDf2, "t", "o", "p")) none).2
      = some (analyzeCore svcAllOk exDf2 "t" "o" "p")
    ∧ (analyzeCore svcAllOk exDf2 "t" "o" "p").table_discussions.length = 4
    ∧ ((corrRows exDf2.numericCols)[0]?).map (fun r => r.2[0]?)
      = some (some none) := by
  refine ⟨⟨fun c hc => ?_, by decide, fun h0 => absurd h0 (by decide)⟩,
    rfl, rfl, rfl, ?_⟩
  · fin_cases hc <;> rfl
  · have hxx : corrEntry [some (1:ℚ), some 1] [some 1, some 1] = none := by
      norm_num [corrEntry, validPairs, ssX, ssY, List.zip_cons_cons,
        List.filterMap_cons]
    simp [corrRows, DataFrame.numericCols, exDf2, List.filterMap_cons, hxx]

/-- Membership in `firstSeen` is membership in the original list. -/
theorem mem_firstSeen {α : Type} [DecidableEq α] (a : α) :
    ∀ l : List α, a ∈ firstSeen l ↔ a ∈ l := by
  intro l
  induction l using firstSeen.induct with
  | case1 => simp [firstSeen]
  | case2 v rest ih =>
    rw [firstSeen]
    by_cases hav : a = v
    · subst hav; simp
    · simp only [List.mem_cons, ih, List.mem_filter]
      constructor
      · rintro (rfl | ⟨h1, -⟩)
        · exact Or.inl rfl
        · exact Or.inr h1
      · rintro (rfl | h1)
        · exact Or.inl rfl
        · exact Or.inr ⟨h1, by simpa using hav⟩

/-- Occurrences of `v` plus the residue after removing them make up the
whole list. -/
theorem count_add_length_filter_ne {α : Type} [DecidableEq α] (v : α) :
    ∀ l : List α, l.count v + (l.filter (fun x => x ≠ v)).length = l.length := by
  intro l
  induction l with
  | nil => simp
  | cons x rest ih =>
    rw [List.filter_cons]
    by_cases hx : x = v
    · subst hx
      rw [List.count_cons_self, if_neg (by simp)]
      simp only [List.length_cons]
      omega
    · rw [List.count_cons_of_ne (fun h => hx h.symm), if_pos (by simpa using hx)]
      simp only [List.length_cons]
      omega

/-- The counts attached to the first-seen distinct values sum to the list
length (each row is counted in exactly one category). -/
theorem sum_count_firstSeen {α : Type} [DecidableEq α] :
    ∀ l : List α, ((firstSeen l).map (fun v => l.count v)).sum = l.length := by
  intro l
  induction l using firstSeen.induct with
  | case1 => simp [firstSeen]
  | case2 v rest ih =>
    rw [firstSeen]
    simp only [List.map_cons, List.sum_cons]
    have hmap : (firstSeen (rest.filter (fun x => x ≠ v))).map
          (fun u => (v :: rest).count u)
        = (firstSeen (rest.filter (fun x => x ≠ v))).map
          (fun u => (rest.filter (fun x => x ≠ v)).count u) := by
      refine List.map_congr_left (fun u hu => ?_)
      have hu2 : u ∈ rest.filter (fun x => x ≠ v) := (mem_firstSeen u _).1 hu
      have hne : u ≠ v := by
        have := (List.mem_filter.1 hu2).2
        simpa using this
      rw [List.count_cons_of_ne hne]
      exact (List.count_filter (by simpa using hne)).symm
    rw [hmap, ih, List.count_cons_self]
    have := count_add_length_filter_ne v rest
    simp only [List.length_cons]
    omega

/-- Stability of `mergeSort` in filter form: a class of mutually `le`-related
elements keeps its input order. -/
theorem mergeSort_filter_stable {α : Type} (le : α → α → Bool)
    (htrans : ∀ a b c, le a b → le b c → le a c)
    (htotal : ∀ a b, le a b || le b a)
    (l : List α) (p : α → Bool)
    (hp : ∀ a b, p a = true → p b = true → le a b = true) :
    (l.mergeSort le).filter p = l.filter p := by
  have hpw : (l.filter p).Pairwise (fun a b => le a b = true) :=
    List.pairwise_of_forall_mem_list
      (fun a ha b hb => hp a b (List.of_mem_filter ha) (List.of_mem_filter hb))
  have hsub : List.Sublist (l.filter p) (l.mergeSort le) :=
    List.sublist_mergeSort htrans htotal hpw (List.filter_sublist l)
  have hsub2 : List.Sublist (l.filter p) ((l.mergeSort le).filter p) := by
    have h2 := hsub.filter p
    simpa [List.filter_filter, Bool.and_self] using h2
  have hperm : List.Perm ((l.mergeSort le).filter p) (l.filter p) :=
    (List.mergeSort_perm l le).filter p
  exact (hsub2.eq_of_length hperm.length_eq.symm).symm

/-- `descCount` is transitive. -/
theorem descCount_trans :
    ∀ a b c : Option String × ℕ, descCount a b → descCount b c → descCount a c := by
  intro a b c hab hbc
  simp only [descCount, decide_eq_true_eq] at *
  omega

/-- `descCount` is total. -/
theorem descCount_total :
    ∀ a b : Option String × ℕ, descCount a b || descCount b a := by
  intro a b
  simp only [descCount, Bool.or_eq_true, decide_eq_true_eq]
  omega

/-- The keys of the frequency table are the first-seen distinct values. -/
theorem freqList_map_fst (vals : List (Option String)) :
    (freqList vals).map Prod.fst = firstSeen vals := by
  unfold freqList
  rw [List.map_map]
  exact List.map_id _

/-- C8: each categorical column's frequency rows are ordered by descending
count; rows with equal counts keep the order in which their category values
first appear in the column; each row's count is the number of occurrences of
its category; and missing values form their own category exactly when the
column has a missing cell. -/
theorem freq_rows_ordering (df : DataFrame) (name : String)
    (vals : List (Option String)) (_hmem : (name, vals) ∈ df.categoricalCols) :
    (freqRows df.nrows vals).map (fun r => (r.1, r.2.1)) = value_counts vals
    ∧ (value_counts vals).Pairwise (fun a b => b.2 ≤ a.2)
    ∧ (∀ c : ℕ, (value_counts vals).filter (fun r => r.2 = c)
        = (freqList vals).filter (fun r => r.2 = c))
    ∧ (∀ r ∈ value_counts vals, r.2 = vals.count r.1)
    ∧ ((none ∈ (value_counts vals).map Prod.fst) ↔ none ∈ vals) := by
  refine ⟨?_, ?_, ?_, ?_, ?_⟩
  · unfold freqRows
    rw [List.map_map]
    exact List.map_id _
  · have h := List.sorted_mergeSort descCount_trans descCount_total
      (freqList vals)
    exact h.imp (fun hab => by simpa [descCount] using hab)
  · intro c
    exact mergeSort_filter_stable descCount descCount_trans descCount_total
      (freqList vals) (fun r => r.2 = c)
      (fun a b ha hb => by
        simp only [decide_eq_true_eq] at ha hb
        simp [descCount, ha, hb])
  · intro r hr
    have hr2 : r ∈ freqList vals := List.mem_mergeSort.1 hr
    rcases List.mem_map.1 hr2 with ⟨v, -, rfl⟩
    rfl
  · have hperm : List.Perm ((value_counts vals).map Prod.fst)
        ((freqList vals).map Prod.fst) :=
      (List.mergeSort_perm _ _).map _
    rw [hperm.mem_iff, freqList_map_fst]
    exact mem_firstSeen none vals

/-- Witness for C8 on the example frame's `Group` column. -/
theorem freq_rows_ordering_witness :
    ("Group", [some "A", some "A", some "B"]) ∈ exDf.categoricalCols
    ∧ ((value_counts [some "A", some "A", some "B"]).Pairwise
        (fun a b => b.2 ≤ a.2)
      ∧ (∀ r ∈ value_counts [some "A", some "A", some "B"],
          r.2 = [some "A", some "A", some "B"].count r.1)) := by
  have h := freq_rows_ordering exDf "Group" [some "A", some "A", some "B"]
    (by decide)
  exact ⟨by decide, h.2.1, h.2.2.2.1⟩

/-- Round half to even moves a value by at most one half. -/
theorem rne_close (y : ℚ) : |(rne y : ℚ) - y| ≤ 1 / 2 := by
  have h0 : (⌊y⌋ : ℚ) ≤ y := Int.floor_le y
  have h1 : y < ⌊y⌋ + 1 := Int.lt_floor_add_one y
  simp only [rne]
  split_ifs with hc1 hc2 hc3 <;> rw [abs_le] <;> push_cast <;>
    constructor <;> linarith

/-- Rounding to two decimals moves a value by at most `1/200`. -/
theorem roundTo_two_close (x : ℚ) : |roundTo 2 x - x| ≤ 1 / 200 := by
  have h := rne_close (x * 10 ^ 2)
  rw [abs_le] at h ⊢
  unfold roundTo
  norm_num at h ⊢
  constructor <;> linarith

/-- Rounding each summand to two decimals moves the sum by at most `1/200`
per entry. -/
theorem sum_roundTo_close : ∀ l : List ℚ,
    |(l.map (roundTo 2)).sum - l.sum| ≤ l.length * (1 / 200) := by
  intro l
  induction l with
  | nil => simp
  | cons x rest ih =>
    simp only [List.map_cons, List.sum_cons, List.length_cons]
    have h1 := roundTo_two_close x
    calc |roundTo 2 x + (rest.map (roundTo 2)).sum - (x + rest.sum)|
        = |(roundTo 2 x - x) + ((rest.map (roundTo 2)).sum - rest.sum)| := by
          ring_nf
      _ ≤ |roundTo 2 x - x| + |(rest.map (roundTo 2)).sum - rest.sum| :=
          abs_add _ _
      _ ≤ 1 / 200 + rest.length * (1 / 200) := add_le_add h1 ih
      _ = (rest.length + 1) * (1 / 200) := by ring
      _ = ((rest.length : ℕ) + 1 : ℕ) * (1 / 200) := by push_cast; ring

/-- The two `BEq (Option String)` instances in scope count alike. -/
theorem count_beq_bridge (v : Option String) (l : List (Option String)) :
    l.count v = @List.count (Option String) instBEqOfDecidableEq v l := by
  induction l with
  | nil => rfl
  | cons x rest ih =>
    rw [List.count_cons, @List.count_cons _ instBEqOfDecidableEq, ih]
    by_cases h : x = v
    · subst h; simp
    · simp [h]

/-- The frequency counts of a column sum to the row count. -/
theorem sum_freqList (vals : List (Option String)) :
    ((freqList vals).map Prod.snd).sum = vals.length := by
  unfold freqList
  rw [List.map_map]
  have hc : (Prod.snd ∘ fun v : Option String => (v, vals.count v))
      = fun v : Option String =>
          @List.count (Option String) instBEqOfDecidableEq v vals :=
    funext (fun v => count_beq_bridge v vals)
  rw [hc]
  exact sum_count_firstSeen vals

/-- A member of `categoricalCols` is a categorical column of the frame. -/
theorem categoricalCols_mem {df : DataFrame} {name : String}
    {vals : List (Option String)} (hmem : (name, vals) ∈ df.categoricalCols) :
    (name, ColData.categorical vals) ∈ df.cols := by
  unfold DataFrame.categoricalCols at hmem
  rcases List.mem_filterMap.1 hmem with ⟨c, hc, hfc⟩
  rcases c with ⟨nm, cd⟩
  cases cd with
  | numeric vs => simp at hfc
  | categorical vs =>
    simp only [Option.some.injEq, Prod.mk.injEq] at hfc
    obtain ⟨rfl, rfl⟩ := hfc
    exact hc

/-- C5: for every categorical column of a well-formed nonempty table, the
computed percentages (count / total_n × 100, rounded half-even to two
decimals, missing values forming their own category) sum to 100 up to the
accumulated rounding tolerance of `1/200` per row. -/
theorem freq_percent_sum (df : DataFrame) (name : String)
    (vals : List (Option String)) (hwf : df.WF) (hn : 0 < df.nrows)
    (hmem : (name, vals) ∈ df.categoricalCols) :
    |((freqRows df.nrows vals).map (fun r => r.2.2)).sum - 100|
      ≤ (freqRows df.nrows vals).length * (1 / 200) := by
  have hlen : vals.length = df.nrows := hwf _ (categoricalCols_mem hmem)
  have hmap : (freqRows df.nrows vals).map (fun r => r.2.2)
      = ((value_counts vals).map
          (fun r => (r.2 : ℚ) / (df.nrows : ℚ) * 100)).map (roundTo 2) := by
    unfold freqRows
    rw [List.map_map, List.map_map]
    rfl
  have hcounts : ((value_counts vals).map (fun r => ((r.2 : ℕ) : ℚ))).sum
      = (df.nrows : ℚ) := by
    have hperm : List.Perm ((value_counts vals).map Prod.snd)
        ((freqList vals).map Prod.snd) := (List.mergeSort_perm _ _).map _
    have hs : ((value_counts vals).map Prod.snd).sum = vals.length := by
      rw [hperm.sum_eq, sum_freqList]
    have hcast : (value_counts vals).map (fun r => ((r.2 : ℕ) : ℚ))
        = ((value_counts vals).map Prod.snd).map (fun n : ℕ => (n : ℚ)) := by
      rw [List.map_map]
      rfl
    rw [hcast, ← Nat.cast_list_sum, hs, hlen]
  have hn' : (df.nrows : ℚ) ≠ 0 := by
    exact_mod_cast hn.ne'
  have hexact : ((value_counts vals).map
      (fun r => (r.2 : ℚ) / (df.nrows : ℚ) * 100)).sum = 100 := by
    have hrw : (value_counts vals).map
          (fun r => (r.2 : ℚ) / (df.nrows : ℚ) * 100)
        = (value_counts vals).map
          (fun r => ((r.2 : ℕ) : ℚ) * (100 / (df.nrows : ℚ))) := by
      refine List.map_congr_left (fun r _ => ?_)
      ring
    rw [hrw, List.sum_map_mul_right, hcounts]
    field_simp
  have hfin := sum_roundTo_close
    ((value_counts vals).map (fun r => (r.2 : ℚ) / (df.nrows : ℚ) * 100))
  rw [hexact] at hfin
  rw [hmap]
  have hlens : ((value_counts vals).map
        (fun r => (r.2 : ℚ) / (df.nrows : ℚ) * 100)).length
      = (freqRows df.nrows vals).length := by
    unfold freqRows
    rw [List.length_map, List.length_map]
  rw [hlens] at hfin
  exact hfin

/-- Witness for C5 on the example frame's `Group` column: the percentages
66.67 and 33.33 sum to 100 within `2/200`. -/
theorem freq_percent_sum_witness :
    exDf.WF ∧ 0 < exDf.nrows
    ∧ ("Group", [some "A", some "A", some "B"]) ∈ exDf.categoricalCols
    ∧ |((freqRows exDf.nrows [some "A", some "A", some "B"]).map
          (fun r => r.2.2)).sum - 100|
        ≤ (freqRows exDf.nrows [some "A", some "A", some "B"]).length
            * (1 / 200) :=
  ⟨exDf_uploaded.1, by decide, by decide,
   freq_percent_sum exDf "Group" [some "A", some "A", some "B"]
     exDf_uploaded.1 (by decide) (by decide)⟩

end Estadistika
